import Mathlib

/-!
Shallow embedding of the webc crawler's per-message pipeline (Go sources under
`lambda/`) and proofs of the specification claims about it.

Conventions of the embedding:
* Go `int`/`int64` values are modelled as `Int` (no overflow is relevant to any
  claim; all arithmetic stays far from 2^63).
* DynamoDB conditional writes are modelled as pure state transitions; a write
  outcome that depends on the external store is a parameter of the function.
* Wall-clock readings (`time.Now()`) are parameters (`nowMs`) or fixed to `0`
  where no claim depends on them.
-/

/-! ## URL record statuses (`state*` constants in the lambda package) -/

inductive UrlStatus where
  | queued
  | processing
  | done
  | failed
  | robotsBlocked
deriving DecidableEq, Repr

/-- The terminal statuses of the URL state machine. -/
def terminalStatuses : List UrlStatus :=
  [UrlStatus.done, UrlStatus.failed, UrlStatus.robotsBlocked]

/-! ## Fetch results (`FetchResult` in fetch.go) -/

structure FetchResult where
  success : Bool
  statusCode : Int
  contentLength : Int
  contentType : String
  durationMs : Int
  error : String
  body : List Nat
deriving DecidableEq, Repr

/-- `isPermanentHTTPError` from fetch.go: true for HTTP status codes that will
never succeed on retry (the `switch` over 400, 401, 403, 404, 405, 410, 414, 451). -/
def isPermanentHTTPError (statusCode : Int) : Bool :=
  statusCode == 400 || statusCode == 401 || statusCode == 403 || statusCode == 404 ||
  statusCode == 405 || statusCode == 410 || statusCode == 414 || statusCode == 451

/-! ## Rate limiter (`checkRateLimit`, `handleRateLimited`, `requeueWithDelay`) -/

/-- `sqsMaxDelaySeconds` constant (900 s = 15 minutes). -/
def sqsMaxDelaySeconds : Int := 900

/-- `checkRateLimit` from the rate-limit file: given the configured
`crawlDelayMs`, the current time in epoch millis and the domain record's
`last_crawled_at` value (`none` when the `domain#` key does not exist), returns
whether crawling is allowed together with the updated record.  The DynamoDB
conditional `PutItem` (`attribute_not_exists(url_hash) OR last_crawled_at <
:min_time`) succeeds iff the key is absent or old enough, and on success stores
`last_crawled_at = now`. -/
def checkRateLimit (crawlDelayMs : Int) (nowMs : Int) (store : Option Int) :
    Bool × Option Int :=
  if crawlDelayMs ≤ 0 then (true, store)
  else
    let minTime := nowMs - crawlDelayMs
    match store with
    | none => (true, some nowMs)
    | some last => if last < minTime then (true, some nowMs) else (false, store)

/-- The visibility delay computed by `handleRateLimited` (`crawlDelayMs / 1000`,
raised to at least 1) and then capped by `requeueWithDelay` at
`sqsMaxDelaySeconds`. -/
def rateLimitDelaySeconds (crawlDelayMs : Int) : Int :=
  let d0 := crawlDelayMs / 1000
  let d1 := if d0 < 1 then 1 else d0
  if d1 > sqsMaxDelaySeconds then sqsMaxDelaySeconds else d1

/-- `handleRateLimited`: resets the URL record's status to `queued`
(unconditional `UpdateItem`, errors ignored) and re-enqueues the same URL and
depth with the computed delay.  Returned as (status written, (message body,
depth attribute, delay seconds)). -/
def handleRateLimited (crawlDelayMs : Int) (targetURL : String) (depth : Int) :
    UrlStatus × (String × Int × Int) :=
  (UrlStatus.queued, (targetURL, depth, rateLimitDelaySeconds crawlDelayMs))

/-- The delay computed by the rate-limit requeue path equals
`min 900 (max 1 (Δ/1000))`. -/
theorem rateLimitDelaySeconds_eq (d : Int) :
    rateLimitDelaySeconds d = min sqsMaxDelaySeconds (max 1 (d / 1000)) := by
  simp only [rateLimitDelaySeconds, sqsMaxDelaySeconds]
  split_ifs <;> omega

/-! ## Claim C6 -/

/-- C6: the rate-limit check with delay Δ returns allowed without touching the
store when Δ ≤ 0; otherwise it is allowed iff the conditional reservation
(domain key absent OR last_crawled_at < now − Δ) succeeds, writing
last_crawled_at = now; when blocked, the handler resets the URL's status to
queued and re-enqueues the same URL and depth with a delay of
max(1, Δ/1000) seconds, clamped to 900 seconds. -/
theorem rate_limit_check_and_requeue (crawlDelayMs nowMs : Int) (store : Option Int)
    (targetURL : String) (depth : Int) (hpos : 0 < crawlDelayMs) :
    (∀ (d : Int) (s : Option Int), d ≤ 0 → checkRateLimit d nowMs s = (true, s)) ∧
    ((checkRateLimit crawlDelayMs nowMs store).1 = true ↔
      (store = none ∨ ∃ last, store = some last ∧ last < nowMs - crawlDelayMs)) ∧
    ((checkRateLimit crawlDelayMs nowMs store).1 = true →
      (checkRateLimit crawlDelayMs nowMs store).2 = some nowMs) ∧
    ((checkRateLimit crawlDelayMs nowMs store).1 = false →
      (checkRateLimit crawlDelayMs nowMs store).2 = store) ∧
    handleRateLimited crawlDelayMs targetURL depth =
      (UrlStatus.queued, (targetURL, depth, min sqsMaxDelaySeconds (max 1 (crawlDelayMs / 1000)))) := by
  refine ⟨?_, ?_, ?_, ?_, ?_⟩
  · intro d s hd
    simp [checkRateLimit, hd]
  · unfold checkRateLimit
    rw [if_neg (by omega)]
    cases store with
    | none => simp
    | some last =>
      by_cases hlt : last < nowMs - crawlDelayMs
      · simp [hlt]
      · simp [hlt]
  · unfold checkRateLimit
    rw [if_neg (by omega)]
    cases store with
    | none => simp
    | some last =>
      by_cases hlt : last < nowMs - crawlDelayMs
      · simp [hlt]
      · simp [hlt]
  · unfold checkRateLimit
    rw [if_neg (by omega)]
    cases store with
    | none => simp
    | some last =>
      by_cases hlt : last < nowMs - crawlDelayMs
      · simp [hlt]
      · simp [hlt]
  · unfold handleRateLimited
    rw [rateLimitDelaySeconds_eq]

/-- Witness for `rate_limit_check_and_requeue` at Δ = 1000 ms, now = 5000,
a domain record last crawled at time 0 (old enough to allow). -/
theorem rate_limit_check_and_requeue_witness :
    (0 : Int) < 1000 ∧
    ((checkRateLimit 1000 5000 (some 0)).1 = true ↔
      ((some 0 : Option Int) = none ∨
        ∃ last, (some 0 : Option Int) = some last ∧ last < 5000 - 1000)) := by
  have h := rate_limit_check_and_requeue 1000 5000 (some 0) "https://example.com/a" 0
    (by decide)
  exact ⟨by decide, h.2.1⟩

/-! ## SQS messages and the per-message pipeline (handler.go)

`processMessage` is modelled as a function from the message and an environment
(the outcomes of the external collaborators: store writes, robots answer, rate
store, fetch response) to the pipeline's return value together with the ordered
trace of externally visible effects it performs. -/

structure SQSMessage where
  messageId : String
  body : String
  /-- the `depth` message attribute's StringValue, when present -/
  depthAttr : Option String
deriving DecidableEq, Repr

/-- `extractDepth` from handler.go: parse the `depth` attribute with
`strconv.Atoi`; absent or unparseable gives 0. -/
def extractDepth (record : SQSMessage) : Int :=
  match record.depthAttr with
  | some s => match s.toInt? with
    | some n => n
    | none => 0
  | none => 0

/-- Outcome of a DynamoDB write as seen by the caller. `conditionFailed` covers
both a failing condition expression and the keyed record not existing at all
(DynamoDB reports both as the same conditional-check failure). -/
inductive StoreError where
  | conditionFailed
  | unavailable (msg : String)
deriving DecidableEq, Repr

def renderStoreError : StoreError → String
  | StoreError.conditionFailed => "ConditionalCheckFailedException"
  | StoreError.unavailable msg => msg

/-- `claimURL` from state.go: issues the conditional update (`#s = :queued` →
`processing`, increment `attempts`) and returns `err == nil`.  Any error —
condition failure, missing record, or a transient store failure — yields
`false`. -/
def claimURL (outcome : Option StoreError) : Bool :=
  outcome.isNone

/-- Crawler configuration fields relevant to the pipeline. -/
structure CrawlerConfig where
  crawlDelayMs : Int
  maxDepth : Int
deriving DecidableEq, Repr

/-- Outcomes of the external collaborators for one message. -/
structure MessageEnv where
  /-- outcome of the conditional claim write -/
  claimError : Option StoreError
  /-- answer of `isAllowedByRobots` -/
  robotsAllowed : Bool
  /-- outcome of the `markStatus` write on the robots-blocked path -/
  markStatusError : Option StoreError
  /-- `time.Now().UnixMilli()` at the rate-limit check -/
  nowMs : Int
  /-- the domain record's `last_crawled_at`, `none` when absent -/
  rlStore : Option Int
  /-- outcome of the requeue `SendMessage` on the rate-limited path -/
  requeueError : Option String
  /-- what `fetchURL` returns -/
  fetchResult : FetchResult
  /-- outcome of the `saveFetchResult` write -/
  saveError : Option StoreError
deriving DecidableEq, Repr

/-- The fetch metadata attributes written by `saveFetchResult`
(http_status, content_length, content_type, fetch_duration_ms, fetch_error,
crawl_depth). -/
structure FetchMeta where
  httpStatus : Int
  contentLength : Int
  contentType : String
  durationMs : Int
  fetchError : String
  crawlDepth : Int
deriving DecidableEq, Repr

def metaOf (result : FetchResult) (depth : Int) : FetchMeta :=
  { httpStatus := result.statusCode
    contentLength := result.contentLength
    contentType := result.contentType
    durationMs := result.durationMs
    fetchError := result.error
    crawlDepth := depth }

/-- Externally visible effects of one `processMessage` run, in order. -/
inductive Effect where
  /-- the conditional claim write, with whether it won -/
  | claim (won : Bool)
  /-- `markStatus` (unconditional status write) -/
  | markStatus (status : UrlStatus)
  /-- the unconditional `status = queued` write of `handleRateLimited` -/
  | resetToQueued
  /-- `requeueWithDelay` SendMessage -/
  | requeue (url : String) (depth : Int) (delaySeconds : Int)
  /-- the HTTP GET of `fetchURL` -/
  | fetchGet (url : String)
  /-- `saveFetchResult` (unconditional terminal write with metadata) -/
  | saveFetch (status : UrlStatus) (meta : FetchMeta)
  /-- `processHTMLContent`: S3 uploads, `saveS3Keys` (writes only the s3_*
  attributes) and `enqueueLinks` (conditional inserts on other url hashes);
  none of these writes this record's `status` attribute -/
  | processHTML
deriving DecidableEq, Repr

/-- `processMessage` from handler.go, lines 23–67, as a function from the
message and environment to (pipeline return, effect trace). -/
def processMessage (cfg : CrawlerConfig) (record : SQSMessage) (env : MessageEnv) :
    Except String Unit × List Effect :=
  let targetURL := record.body
  let depth := extractDepth record
  if claimURL env.claimError = false then
    -- LOST race — ACK the message silently
    (Except.ok (), [Effect.claim false])
  else if env.robotsAllowed = false then
    -- Blocked by robots.txt: mark robots_blocked and return markStatus's result
    ( match env.markStatusError with
      | none => Except.ok ()
      | some e => Except.error (renderStoreError e),
      [Effect.claim true, Effect.markStatus UrlStatus.robotsBlocked])
  else if (checkRateLimit cfg.crawlDelayMs env.nowMs env.rlStore).1 = false then
    -- Rate limited: reset to queued (errors ignored) and requeue with delay
    let h := handleRateLimited cfg.crawlDelayMs targetURL depth
    ( match env.requeueError with
      | none => Except.ok ()
      | some e => Except.error e,
      [Effect.claim true, Effect.resetToQueued,
       Effect.requeue h.2.1 h.2.2.1 h.2.2.2])
  else
    let result := env.fetchResult
    if result.success = false then
      if 0 < result.statusCode ∧ isPermanentHTTPError result.statusCode = true then
        -- Permanent failure — save (terminal `failed`) and acknowledge
        ( match env.saveError with
          | none => Except.ok ()
          | some e => Except.error (renderStoreError e),
          [Effect.claim true, Effect.fetchGet targetURL,
           Effect.saveFetch UrlStatus.failed (metaOf result depth)])
      else
        -- Retriable failure — return error so SQS retries; no state write
        (Except.error ("retriable failure for " ++ targetURL),
          [Effect.claim true, Effect.fetchGet targetURL])
    else
      match env.saveError with
      | some e =>
        (Except.error (renderStoreError e),
          [Effect.claim true, Effect.fetchGet targetURL,
           Effect.saveFetch UrlStatus.done (metaOf result depth)])
      | none =>
        (Except.ok (),
          [Effect.claim true, Effect.fetchGet targetURL,
           Effect.saveFetch UrlStatus.done (metaOf result depth),
           Effect.processHTML])

/-- Interpretation of one effect on the URL record's `status` attribute. A won
claim moves `queued` to `processing` (its condition requires `queued`); the
unconditional writes set the status; fetches, requeues and HTML
post-processing leave it unchanged. -/
def applyEffect (s : UrlStatus) : Effect → UrlStatus
  | Effect.claim true => if s = UrlStatus.queued then UrlStatus.processing else s
  | Effect.claim false => s
  | Effect.markStatus st => st
  | Effect.resetToQueued => UrlStatus.queued
  | Effect.saveFetch st _ => st
  | Effect.requeue _ _ _ => s
  | Effect.fetchGet _ => s
  | Effect.processHTML => s

def runStatus (s : UrlStatus) (effs : List Effect) : UrlStatus :=
  effs.foldl applyEffect s

/-- The status value written by an effect, if it writes one. -/
def statusWriteOf : Effect → Option UrlStatus
  | Effect.markStatus st => some st
  | Effect.resetToQueued => some UrlStatus.queued
  | Effect.saveFetch st _ => some st
  | _ => none

/-- The sequence of unconditional status writes in a trace. -/
def statusWrites (effs : List Effect) : List UrlStatus :=
  effs.filterMap statusWriteOf

/-! ## Claim C1 -/

/-- C1: for a fetch result with success = false reached by the pipeline: if the
status code is positive and in the permanent set {400, 401, 403, 404, 405, 410,
414, 451}, the pipeline calls save_fetch_result (terminal `failed` with the
fetch metadata) and acknowledges; for every other failure it returns an error,
performs no terminal status write, and the record stays `processing`. -/
theorem permanent_vs_retriable_failure_classification
    (cfg : CrawlerConfig) (record : SQSMessage) (env : MessageEnv)
    (hclaim : env.claimError = none) (hrob : env.robotsAllowed = true)
    (hrate : (checkRateLimit cfg.crawlDelayMs env.nowMs env.rlStore).1 = true)
    (hfail : env.fetchResult.success = false) :
    (∀ s : Int, isPermanentHTTPError s = true ↔
      s ∈ ([400, 401, 403, 404, 405, 410, 414, 451] : List Int)) ∧
    (0 < env.fetchResult.statusCode ∧
        isPermanentHTTPError env.fetchResult.statusCode = true →
      (processMessage cfg record env).2 =
        [Effect.claim true, Effect.fetchGet record.body,
         Effect.saveFetch UrlStatus.failed (metaOf env.fetchResult (extractDepth record))] ∧
      runStatus UrlStatus.queued (processMessage cfg record env).2 = UrlStatus.failed ∧
      (env.saveError = none → (processMessage cfg record env).1 = Except.ok ())) ∧
    (¬(0 < env.fetchResult.statusCode ∧
        isPermanentHTTPError env.fetchResult.statusCode = true) →
      (∃ msg, (processMessage cfg record env).1 = Except.error msg) ∧
      statusWrites (processMessage cfg record env).2 = [] ∧
      runStatus UrlStatus.queued (processMessage cfg record env).2 = UrlStatus.processing) := by
  have hcu : claimURL env.claimError = true := by
    simp [claimURL, hclaim]
  refine ⟨?_, ?_, ?_⟩
  · intro s
    simp only [isPermanentHTTPError, List.mem_cons, List.not_mem_nil, or_false,
      Bool.or_eq_true, beq_iff_eq]
    tauto
  · intro hperm
    simp only [processMessage, hcu, hrob, hrate, hfail]
    rw [if_neg (by simp), if_neg (by simp), if_neg (by simp), if_pos hperm]
    refine ⟨rfl, by simp [runStatus, applyEffect], ?_⟩
    intro hsave
    simp [hsave]
  · intro hperm
    simp only [processMessage, hcu, hrob, hrate, hfail]
    rw [if_neg (by simp), if_neg (by simp), if_neg (by simp), if_neg hperm]
    exact ⟨⟨_, rfl⟩, by simp [statusWrites, statusWriteOf],
      by simp [runStatus, applyEffect]⟩

/-- A fetch result for a 404 response. -/
def c1fetch404 : FetchResult :=
  { success := false, statusCode := 404, contentLength := 0,
    contentType := "", durationMs := 7, error := "", body := [] }

/-- Environment for the C1 witness: claim won, robots allowed, no rate-limit
store record, fetch returned 404, save succeeds. -/
def c1env : MessageEnv :=
  { claimError := none, robotsAllowed := true, markStatusError := none,
    nowMs := 0, rlStore := none, requeueError := none,
    fetchResult := c1fetch404, saveError := none }

def c1cfg : CrawlerConfig := { crawlDelayMs := 0, maxDepth := 3 }

def c1msg : SQSMessage :=
  { messageId := "m1", body := "https://example.com/a", depthAttr := none }

/-- Witness for `permanent_vs_retriable_failure_classification`: a 404 response
on a claimed, robots-allowed, rate-allowed message is saved as terminal
`failed` and acknowledged. -/
theorem permanent_vs_retriable_failure_classification_witness :
    c1env.claimError = none ∧
    (processMessage c1cfg c1msg c1env).1 = Except.ok () := by
  have h := permanent_vs_retriable_failure_classification c1cfg c1msg c1env
    rfl rfl (by decide) rfl
  exact ⟨rfl, (h.2.1 (by decide)).2.2 rfl⟩

/-! ## Claim C10 -/

/-- C10: the claim operation returns true iff the store's conditional update
returned no error; on any error (condition failure — including a missing
record — or transient store failure) it returns false and the pipeline ACKs
the message as a lost race, dropping it without a fetch and without any state
write. -/
theorem claim_lost_race_drops_message
    (cfg : CrawlerConfig) (record : SQSMessage) (env : MessageEnv) (e : StoreError)
    (hclaim : env.claimError = some e) :
    (∀ o : Option StoreError, claimURL o = true ↔ o = none) ∧
    (processMessage cfg record env).1 = Except.ok () ∧
    (processMessage cfg record env).2 = [Effect.claim false] ∧
    statusWrites (processMessage cfg record env).2 = [] ∧
    (∀ url, Effect.fetchGet url ∉ (processMessage cfg record env).2) ∧
    (∀ s, runStatus s (processMessage cfg record env).2 = s) := by
  have hcu : claimURL env.claimError = false := by
    simp [claimURL, hclaim]
  have hpm : processMessage cfg record env = (Except.ok (), [Effect.claim false]) := by
    simp [processMessage, hcu]
  refine ⟨?_, ?_, ?_, ?_, ?_, ?_⟩
  · intro o
    cases o <;> simp [claimURL]
  · rw [hpm]
  · rw [hpm]
  · rw [hpm]; rfl
  · intro url
    rw [hpm]
    simp
  · intro s
    rw [hpm]
    simp [runStatus, applyEffect]

/-- A successful 200 fetch result (unused on the lost-race path). -/
def c10fetch200 : FetchResult :=
  { success := true, statusCode := 200, contentLength := 0,
    contentType := "", durationMs := 0, error := "", body := [] }

/-- Environment for the C10 witness: the conditional claim write failed. -/
def c10env : MessageEnv :=
  { claimError := some StoreError.conditionFailed, robotsAllowed := true,
    markStatusError := none, nowMs := 0, rlStore := none, requeueError := none,
    fetchResult := c10fetch200, saveError := none }

def c10cfg : CrawlerConfig := { crawlDelayMs := 1000, maxDepth := 3 }

def c10msg : SQSMessage :=
  { messageId := "m2", body := "https://example.com/b", depthAttr := none }

/-- Witness for `claim_lost_race_drops_message`: a conditional-check failure
(record already `processing`, or expired away) makes the pipeline ACK without
further effects. -/
theorem claim_lost_race_drops_message_witness :
    c10env.claimError = some StoreError.conditionFailed ∧
    (processMessage c10cfg c10msg c10env).2 = [Effect.claim false] := by
  have h := claim_lost_race_drops_message c10cfg c10msg c10env
    StoreError.conditionFailed rfl
  exact ⟨rfl, h.2.2.1⟩

/-! ## Batch handler (`Handler` in handler.go) and claim C4 -/

/-- The loop body of `Handler`: run `processMessage` on each record in order,
collecting the per-message results (the code logs each error and otherwise
discards it). -/
def handlerLoop (cfg : CrawlerConfig) :
    List (SQSMessage × MessageEnv) → List (Except String Unit)
  | [] => []
  | r :: rest => (processMessage cfg r.1 r.2).1 :: handlerLoop cfg rest

/-- `Handler` from handler.go, lines 11–21: iterate the batch, log failures,
and `return nil`.  First component: the handler's own return value to the
transport.  Second component: the per-message pipeline results (observable only
in the log). -/
def Handler (cfg : CrawlerConfig) (batch : List (SQSMessage × MessageEnv)) :
    Except String Unit × List (Except String Unit) :=
  (Except.ok (), handlerLoop cfg batch)

/-- Modelled from the spec: the delivery transport's redelivery behaviour for a
handler that returns a plain error value and reports no per-message failure
entries (handler.go's `Handler` has result type `error` and the code builds no
partial-batch-failure response).  On a success return the transport deletes
(acknowledges) every message of the batch; on an error return it redelivers the
whole batch. -/
def redeliveredMessages (batch : List (SQSMessage × MessageEnv))
    (handlerReturn : Except String Unit) : List SQSMessage :=
  match handlerReturn with
  | Except.ok _ => []
  | Except.error _ => batch.map Prod.fst

/-- Environment for the C4 counterexample: the message reaches the fetch and
gets a retriable 500, so its pipeline returns an error. -/
def c4env : MessageEnv :=
  { claimError := none, robotsAllowed := true, markStatusError := none,
    nowMs := 0, rlStore := none, requeueError := none,
    fetchResult := { success := false, statusCode := 500, contentLength := 0,
                     contentType := "", durationMs := 3,
                     error := "server error", body := [] },
    saveError := none }

def c4cfg : CrawlerConfig := { crawlDelayMs := 0, maxDepth := 3 }

def c4msg : SQSMessage :=
  { messageId := "m4", body := "https://example.com/c", depthAttr := none }

def c4batch : List (SQSMessage × MessageEnv) := [(c4msg, c4env)]

/-- C4 counterexample: a batch whose single message fails with a retriable
error.  Its pipeline returns an error, yet the handler's return is success and
no failure is surfaced for the message — the transport acknowledges it instead
of redelivering it, contradicting the claim that each failed message's error is
surfaced by returning a failure for that message. -/
theorem batch_failure_not_surfaced_counterexample :
    (processMessage c4cfg c4msg c4env).1 =
      Except.error ("retriable failure for " ++ "https://example.com/c") ∧
    (Handler c4cfg c4batch).1 = Except.ok () ∧
    redeliveredMessages c4batch (Handler c4cfg c4batch).1 = [] ∧
    c4msg ∉ redeliveredMessages c4batch (Handler c4cfg c4batch).1 := by
  refine ⟨rfl, rfl, rfl, ?_⟩
  intro hmem
  simp [Handler, redeliveredMessages] at hmem

/-! ## Claim C2: the URL status FSM under interleaved pipeline executions

Each delivered duplicate of a URL runs `processMessage` against the shared
record.  On the record's `status` attribute a run performs the conditional
claim and then at most one unconditional status write (read off the branch
structure of handler.go; `saveS3Keys` and the fan-out's conditional inserts
never touch this record's `status`).  Runs from different worker instances
interleave arbitrarily at store-operation granularity. -/

inductive StatusWrite where
  /-- `markStatus(h, robots_blocked)` on the robots-deny path -/
  | markRobotsBlocked
  /-- the `status = queued` reset of `handleRateLimited` -/
  | resetQueued
  /-- `saveFetchResult`: `done` if the fetch succeeded, else `failed` -/
  | saveResult (success : Bool)
deriving DecidableEq, Repr

def writeTarget : StatusWrite → UrlStatus
  | StatusWrite.markRobotsBlocked => UrlStatus.robotsBlocked
  | StatusWrite.resetQueued => UrlStatus.queued
  | StatusWrite.saveResult true => UrlStatus.done
  | StatusWrite.saveResult false => UrlStatus.failed

/-- The at-most-one status write a pipeline run performs after winning the
claim, read off the branches of `processMessage` (none on the retriable-failure
path). -/
def pipelineWrite (cfg : CrawlerConfig) (env : MessageEnv) : Option StatusWrite :=
  if env.robotsAllowed = false then some StatusWrite.markRobotsBlocked
  else if (checkRateLimit cfg.crawlDelayMs env.nowMs env.rlStore).1 = false then
    some StatusWrite.resetQueued
  else if env.fetchResult.success = false then
    if 0 < env.fetchResult.statusCode ∧
        isPermanentHTTPError env.fetchResult.statusCode = true then
      some (StatusWrite.saveResult false)
    else none
  else some (StatusWrite.saveResult true)

/-- Coherence of the two models: the status writes in a `processMessage` trace
are exactly the rendered `pipelineWrite` when the claim was won, and nothing
when it was lost. -/
theorem statusWrites_processMessage (cfg : CrawlerConfig) (record : SQSMessage)
    (env : MessageEnv) :
    statusWrites (processMessage cfg record env).2 =
      if env.claimError = none
      then ((pipelineWrite cfg env).map writeTarget).toList
      else [] := by
  cases hce : env.claimError with
  | some e =>
    have hcu : claimURL env.claimError = false := by simp [claimURL, hce]
    simp [processMessage, hcu, statusWrites, statusWriteOf]
  | none =>
    have hcu : claimURL env.claimError = true := by simp [claimURL, hce]
    simp only [processMessage, hcu, pipelineWrite, if_pos]
    rw [if_neg (by simp)]
    by_cases hrob : env.robotsAllowed = false
    · simp [hrob, statusWrites, statusWriteOf, writeTarget]
    · rw [if_neg hrob, if_neg hrob]
      by_cases hrate : (checkRateLimit cfg.crawlDelayMs env.nowMs env.rlStore).1 = false
      · cases henq : env.requeueError <;>
          simp [hrate, henq, statusWrites, statusWriteOf, writeTarget]
      · rw [if_neg hrate, if_neg hrate]
        by_cases hsucc : env.fetchResult.success = false
        · rw [if_pos hsucc, if_pos hsucc]
          by_cases hperm : 0 < env.fetchResult.statusCode ∧
              isPermanentHTTPError env.fetchResult.statusCode = true
          · cases hsave : env.saveError <;>
              simp [hperm, hsave, statusWrites, statusWriteOf, writeTarget]
          · simp [hperm, statusWrites, statusWriteOf]
        · rw [if_neg hsucc, if_neg hsucc]
          cases hsave : env.saveError <;>
            simp [hsave, statusWrites, statusWriteOf, writeTarget]

inductive Phase where
  | ready
  | claimed
  | finished
deriving DecidableEq, Repr

/-- One pipeline run racing on the shared URL record: its control point with
respect to the record (`ready` = has not issued the claim; `claimed` = won the
claim, write still pending; `finished` = no further access) and the status
write it will perform if it wins. -/
structure Worker where
  phase : Phase
  write : Option StatusWrite
deriving DecidableEq, Repr

/-- The runs spawned by a set of deliveries: all are `ready`, each carrying the
write determined by its environment through the pipeline's branches. -/
def initWorkers (cfg : CrawlerConfig) (envs : List MessageEnv) : List Worker :=
  envs.map (fun env => { phase := Phase.ready, write := pipelineWrite cfg env })

inductive StepLabel where
  | claimWon
  | claimLost
  | noWrite
  | writeOp (w : StatusWrite)
deriving DecidableEq, Repr

/-- One interleaving step of the racing runs against the shared record: the
conditional claim succeeds only from `queued` (electing the worker), fails
otherwise (the worker ACKs and exits), and a claimed worker performs its
pending unconditional status write (or none, on the retriable path) and
finishes. -/
inductive WStep : StepLabel → UrlStatus × List Worker → UrlStatus × List Worker → Prop where
  | claimWon (l r : List Worker) (wr : Option StatusWrite) :
      WStep StepLabel.claimWon
        (UrlStatus.queued, l ++ { phase := Phase.ready, write := wr } :: r)
        (UrlStatus.processing, l ++ { phase := Phase.claimed, write := wr } :: r)
  | claimLost (s : UrlStatus) (l r : List Worker) (wr : Option StatusWrite) :
      s ≠ UrlStatus.queued →
      WStep StepLabel.claimLost
        (s, l ++ { phase := Phase.ready, write := wr } :: r)
        (s, l ++ { phase := Phase.finished, write := wr } :: r)
  | noWrite (s : UrlStatus) (l r : List Worker) :
      WStep StepLabel.noWrite
        (s, l ++ { phase := Phase.claimed, write := none } :: r)
        (s, l ++ { phase := Phase.finished, write := none } :: r)
  | writeOp (s : UrlStatus) (l r : List Worker) (w : StatusWrite) :
      WStep (StepLabel.writeOp w)
        (s, l ++ { phase := Phase.claimed, write := some w } :: r)
        (writeTarget w, l ++ { phase := Phase.finished, write := some w } :: r)

/-- A step under some label. -/
def WSteps (a b : UrlStatus × List Worker) : Prop := ∃ lbl, WStep lbl a b

/-- Reachability by interleaved pipeline steps. -/
def WReach : UrlStatus × List Worker → UrlStatus × List Worker → Prop :=
  Relation.ReflTransGen WSteps

def countClaimed (ws : List Worker) : Nat :=
  ws.countP (fun w => decide (w.phase = Phase.claimed))

theorem countClaimed_append_cons (l r : List Worker) (w : Worker) :
    countClaimed (l ++ w :: r) =
      countClaimed l + (if w.phase = Phase.claimed then 1 else 0) + countClaimed r := by
  simp only [countClaimed, List.countP_append, List.countP_cons]
  by_cases h : w.phase = Phase.claimed
  · simp [h]; omega
  · simp [h]

/-- The race invariant: at most one claimed worker, and a claimed worker can
exist only while the record is `processing`. -/
def WInv (c : UrlStatus × List Worker) : Prop :=
  countClaimed c.2 ≤ 1 ∧ (c.1 ≠ UrlStatus.processing → countClaimed c.2 = 0)

theorem countClaimed_init (cfg : CrawlerConfig) (envs : List MessageEnv) :
    countClaimed (initWorkers cfg envs) = 0 := by
  simp only [countClaimed, initWorkers]
  rw [List.countP_eq_zero]
  intro w hw
  obtain ⟨e, _, rfl⟩ := List.mem_map.mp hw
  simp

theorem winv_init (cfg : CrawlerConfig) (envs : List MessageEnv) (s0 : UrlStatus) :
    WInv (s0, initWorkers cfg envs) := by
  have hz := countClaimed_init cfg envs
  exact ⟨by rw [hz]; omega, fun _ => hz⟩

theorem winv_step {lbl : StepLabel} {a b : UrlStatus × List Worker}
    (hstep : WStep lbl a b) (hinv : WInv a) : WInv b := by
  cases hstep with
  | claimWon l r wr =>
    have h0 : countClaimed (l ++ ({ phase := Phase.ready, write := wr } : Worker) :: r) = 0 :=
      hinv.2 (by simp)
    rw [countClaimed_append_cons] at h0
    simp at h0
    refine ⟨?_, fun hne => absurd rfl hne⟩
    show countClaimed (l ++ ({ phase := Phase.claimed, write := wr } : Worker) :: r) ≤ 1
    rw [countClaimed_append_cons]
    simp
    omega
  | claimLost s l r wr hne =>
    have hle : countClaimed (l ++ ({ phase := Phase.ready, write := wr } : Worker) :: r) ≤ 1 :=
      hinv.1
    have hnz : s ≠ UrlStatus.processing →
        countClaimed (l ++ ({ phase := Phase.ready, write := wr } : Worker) :: r) = 0 :=
      hinv.2
    rw [countClaimed_append_cons] at hle hnz
    refine ⟨?_, ?_⟩
    · show countClaimed (l ++ ({ phase := Phase.finished, write := wr } : Worker) :: r) ≤ 1
      rw [countClaimed_append_cons]
      simp at hle ⊢
      omega
    · intro h
      show countClaimed (l ++ ({ phase := Phase.finished, write := wr } : Worker) :: r) = 0
      have := hnz h
      rw [countClaimed_append_cons]
      simp at this ⊢
      omega
  | noWrite s l r =>
    have hle : countClaimed (l ++ ({ phase := Phase.claimed, write := none } : Worker) :: r) ≤ 1 :=
      hinv.1
    have hnz : s ≠ UrlStatus.processing →
        countClaimed (l ++ ({ phase := Phase.claimed, write := none } : Worker) :: r) = 0 :=
      hinv.2
    rw [countClaimed_append_cons] at hle
    simp at hle
    refine ⟨?_, ?_⟩
    · show countClaimed (l ++ ({ phase := Phase.finished, write := none } : Worker) :: r) ≤ 1
      rw [countClaimed_append_cons]
      simp
      omega
    · intro h
      exfalso
      have := hnz h
      rw [countClaimed_append_cons] at this
      simp at this
  | writeOp s l r w =>
    have hle : countClaimed (l ++ ({ phase := Phase.claimed, write := some w } : Worker) :: r) ≤ 1 :=
      hinv.1
    rw [countClaimed_append_cons] at hle
    simp at hle
    refine ⟨?_, ?_⟩
    · show countClaimed (l ++ ({ phase := Phase.finished, write := some w } : Worker) :: r) ≤ 1
      rw [countClaimed_append_cons]
      simp
      omega
    · intro _
      show countClaimed (l ++ ({ phase := Phase.finished, write := some w } : Worker) :: r) = 0
      rw [countClaimed_append_cons]
      simp
      omega

theorem winv_reach {a b : UrlStatus × List Worker} (h : WReach a b) (hinv : WInv a) :
    WInv b := by
  induction h with
  | refl => exact hinv
  | tail _ hstep ih =>
    obtain ⟨lbl, hstep⟩ := hstep
    exact winv_step hstep ih

/-- The FSM edges of §4.10 of the spec. -/
def fsmEdge (s t : UrlStatus) : Prop :=
  (s = UrlStatus.queued ∧ t = UrlStatus.processing) ∨
  (s = UrlStatus.processing ∧
    (t = UrlStatus.done ∨ t = UrlStatus.failed ∨ t = UrlStatus.robotsBlocked ∨
     t = UrlStatus.queued))

/-- C2: along any interleaving of pipeline runs started from the delivered
environments, the record's status changes only along the FSM edges
(queued→processing by the winning claim; processing→done/failed/robots_blocked/
queued by the single pending write, with processing→queued exclusively the
rate-limit reset), and once the status is terminal no step changes it.  The
final two conjuncts tie the abstract write alphabet back to `processMessage`:
`resetQueued` arises exactly on the robots-allowed, rate-blocked branch, and a
run's trace performs exactly its `pipelineWrite` when it wins the claim. -/
theorem url_status_fsm_invariant
    (cfg : CrawlerConfig) (envs : List MessageEnv) (s0 : UrlStatus)
    (mid next : UrlStatus × List Worker) (lbl : StepLabel)
    (hreach : WReach (s0, initWorkers cfg envs) mid)
    (hstep : WStep lbl mid next) :
    (next.1 = mid.1 ∨ fsmEdge mid.1 next.1) ∧
    (mid.1 ∈ terminalStatuses → next.1 = mid.1) ∧
    (next.1 ≠ mid.1 →
      (lbl = StepLabel.claimWon ∧ mid.1 = UrlStatus.queued ∧
        next.1 = UrlStatus.processing) ∨
      (∃ w, lbl = StepLabel.writeOp w ∧ mid.1 = UrlStatus.processing ∧
        next.1 = writeTarget w)) ∧
    (mid.1 = UrlStatus.processing ∧ next.1 = UrlStatus.queued →
      lbl = StepLabel.writeOp StatusWrite.resetQueued) ∧
    (∀ env, pipelineWrite cfg env = some StatusWrite.resetQueued ↔
      (env.robotsAllowed = true ∧
        (checkRateLimit cfg.crawlDelayMs env.nowMs env.rlStore).1 = false)) ∧
    (∀ record env, statusWrites (processMessage cfg record env).2 =
      if env.claimError = none
      then ((pipelineWrite cfg env).map writeTarget).toList
      else []) := by
  have hinv : WInv mid := winv_reach hreach (winv_init cfg envs s0)
  have hcoh : ∀ env, pipelineWrite cfg env = some StatusWrite.resetQueued ↔
      (env.robotsAllowed = true ∧
        (checkRateLimit cfg.crawlDelayMs env.nowMs env.rlStore).1 = false) := by
    intro env
    constructor
    · intro h
      by_cases hrob : env.robotsAllowed = false
      · simp [pipelineWrite, hrob] at h
      · by_cases hrate : (checkRateLimit cfg.crawlDelayMs env.nowMs env.rlStore).1 = false
        · exact ⟨by simpa using hrob, hrate⟩
        · exfalso
          simp only [pipelineWrite, if_neg hrob, if_neg hrate] at h
          by_cases hsucc : env.fetchResult.success = false
          · rw [if_pos hsucc] at h
            by_cases hperm : 0 < env.fetchResult.statusCode ∧
                isPermanentHTTPError env.fetchResult.statusCode = true
            · rw [if_pos hperm] at h
              exact StatusWrite.noConfusion (Option.some.inj h)
            · rw [if_neg hperm] at h
              exact Option.noConfusion h
          · rw [if_neg hsucc] at h
            exact StatusWrite.noConfusion (Option.some.inj h)
    · intro ⟨hrob, hrate⟩
      simp [pipelineWrite, hrob, hrate]
  -- the claimed-worker argument: a claimed worker forces status `processing`
  cases hstep with
  | claimWon l r wr =>
    refine ⟨Or.inr (Or.inl ⟨rfl, rfl⟩), ?_, ?_, ?_, hcoh, statusWrites_processMessage cfg⟩
    · intro hterm
      simp [terminalStatuses] at hterm
    · intro _
      exact Or.inl ⟨rfl, rfl, rfl⟩
    · intro ⟨h1, _⟩
      exact absurd h1 (by simp)
  | claimLost s l r wr hne =>
    exact ⟨Or.inl rfl, fun _ => rfl, fun h => absurd rfl h,
      fun ⟨h1, h2⟩ => absurd (h1 ▸ h2) (by simp), hcoh,
      statusWrites_processMessage cfg⟩
  | noWrite s l r =>
    exact ⟨Or.inl rfl, fun _ => rfl, fun h => absurd rfl h,
      fun ⟨h1, h2⟩ => absurd (h1 ▸ h2) (by simp), hcoh,
      statusWrites_processMessage cfg⟩
  | writeOp s l r w =>
    have hproc : s = UrlStatus.processing := by
      by_contra hne
      have h0 := hinv.2 hne
      rw [countClaimed_append_cons] at h0
      simp at h0
    subst hproc
    refine ⟨Or.inr (Or.inr ⟨rfl, ?_⟩), ?_, ?_, ?_, hcoh,
      statusWrites_processMessage cfg⟩
    · cases w with
      | markRobotsBlocked => simp [writeTarget]
      | resetQueued => simp [writeTarget]
      | saveResult b => cases b <;> simp [writeTarget]
    · intro hterm
      simp [terminalStatuses] at hterm
    · intro _
      exact Or.inr ⟨w, rfl, rfl, rfl⟩
    · intro ⟨_, h2⟩
      cases w with
      | markRobotsBlocked => exact absurd h2 (by simp [writeTarget])
      | resetQueued => rfl
      | saveResult b => cases b <;> exact absurd h2 (by simp [writeTarget])

/-- Environment for the C2 witness: a run that wins the claim and will save a
successful fetch. -/
def c2env : MessageEnv :=
  { claimError := none, robotsAllowed := true, markStatusError := none,
    nowMs := 0, rlStore := none, requeueError := none,
    fetchResult := { success := true, statusCode := 200, contentLength := 5,
                     contentType := "text/html", durationMs := 1, error := "",
                     body := [104, 101, 108, 108, 111] },
    saveError := none }

def c2cfg : CrawlerConfig := { crawlDelayMs := 0, maxDepth := 3 }

def c2init : UrlStatus × List Worker := (UrlStatus.queued, initWorkers c2cfg [c2env])

def c2next : UrlStatus × List Worker :=
  (UrlStatus.processing, [{ phase := Phase.claimed, write := pipelineWrite c2cfg c2env }])

/-- Witness for `url_status_fsm_invariant`: from a fresh `queued` record with
one pending run, the winning claim is an FSM edge and `queued` is not
terminal. -/
theorem url_status_fsm_invariant_witness :
    (c2next.1 = c2init.1 ∨ fsmEdge c2init.1 c2next.1) ∧
    (c2init.1 ∈ terminalStatuses → c2next.1 = c2init.1) := by
  have hstep : WStep StepLabel.claimWon c2init c2next := by
    have h := WStep.claimWon ([] : List Worker) ([] : List Worker)
      (pipelineWrite c2cfg c2env)
    simpa [c2init, c2next, initWorkers] using h
  have h := url_status_fsm_invariant c2cfg [c2env] UrlStatus.queued c2init c2next
    StepLabel.claimWon Relation.ReflTransGen.refl hstep
  exact ⟨h.1, h.2.1⟩

/-- C4 amended: the batch handler processes each message independently in
order (one message's error does not prevent the others from being processed),
and its own return is always success; each failed message's error is only
logged and consumed, so no failure is surfaced to the transport for it and the
transport does not redeliver it. -/
theorem batch_handler_processes_all_returns_success
    (cfg : CrawlerConfig) (batch : List (SQSMessage × MessageEnv)) :
    (Handler cfg batch).1 = Except.ok () ∧
    (Handler cfg batch).2 = batch.map (fun r => (processMessage cfg r.1 r.2).1) ∧
    redeliveredMessages batch (Handler cfg batch).1 = [] := by
  refine ⟨rfl, ?_, rfl⟩
  show handlerLoop cfg batch = _
  induction batch with
  | nil => rfl
  | cons r rest ih => simp [handlerLoop, ih]

/-! ## Claim C5: the bounded robots cache (robots.go)

`getRobots` is modelled per call: the fetch/parse outcome for the domain is a
parameter, and the function returns the updated cache together with the value
the caller sees. -/

/-- Parsed robots.txt rules (`*robotstxt.RobotsData`); its contents are opaque
to the cache-bound claim. -/
structure RobotsData where
  raw : String
deriving DecidableEq, Repr

/-- The per-process cache `map[string]*robotstxt.RobotsData`, keyed by
`scheme://host`.  A `none` value is the cached `nil` sentinel meaning "no
rules, allow all". -/
abbrev RobotsCache := List (String × Option RobotsData)

def robotsLookup (cache : RobotsCache) (domain : String) :
    Option (Option RobotsData) :=
  match cache.find? (fun p => p.1 == domain) with
  | some p => some p.2
  | none => none

/-- `maxRobotsCacheSize` from the lambda package constants. -/
def maxRobotsCacheSize : Nat := 1000

/-- `evictRobotsCacheIfFull` from robots.go: no-op below the cap, otherwise
delete a single entry.  Go deletes a pseudo-random entry via map iteration
order; the model deletes the first one — only the resulting size matters to
the claim. -/
def evictRobotsCacheIfFull (cache : RobotsCache) : RobotsCache :=
  if cache.length < maxRobotsCacheSize then cache else cache.drop 1

/-- Outcome of the robots.txt retrieval attempted on a cache miss. -/
inductive RobotsOutcome where
  /-- `url.Parse(urlStr)` failed: return nil before touching the cache -/
  | urlParseError
  /-- `ssrf.ValidateHost` rejected the host -/
  | ssrfBlocked
  /-- `http.NewRequestWithContext` failed -/
  | requestBuildError
  /-- `httpClient.Do` returned an error -/
  | fetchError
  /-- response status was not 200 -/
  | badStatus (code : Int)
  /-- reading the (512 KiB-capped) body failed -/
  | readError
  /-- `robotstxt.FromBytes` failed -/
  | parseBad
  /-- robots.txt fetched and parsed -/
  | parsed (robots : RobotsData)
deriving DecidableEq, Repr

/-- `getRobots` from robots.go for the domain `scheme://host`.  A cache hit
returns the cached value.  On a miss, every failure path caches the `nil`
sentinel by direct assignment — robots.go lines 33, 39, 47, 55, 61 and 68 do
`c.robotsCache[domain] = nil` without calling `evictRobotsCacheIfFull` — while
only the successful parse (line 73) evicts before inserting. -/
def getRobots (cache : RobotsCache) (domain : String) (outcome : RobotsOutcome) :
    RobotsCache × Option RobotsData :=
  if outcome = RobotsOutcome.urlParseError then (cache, none)
  else
    match robotsLookup cache domain with
    | some v => (cache, v)
    | none =>
      match outcome with
      | RobotsOutcome.parsed r =>
          ((domain, some r) :: evictRobotsCacheIfFull cache, some r)
      | _ => ((domain, none) :: cache, none)

/-- A sequence of `getRobots` calls threaded through the cache. -/
def runGetRobots (cache : RobotsCache) : List (String × RobotsOutcome) → RobotsCache
  | [] => cache
  | c :: rest => runGetRobots (getRobots cache c.1 c.2).1 rest

theorem robotsLookup_cons_ne (cache : RobotsCache) (d d' : String)
    (v : Option RobotsData) (h : d' ≠ d) :
    robotsLookup ((d, v) :: cache) d' = robotsLookup cache d' := by
  simp only [robotsLookup, List.find?]
  have : ((d, v).1 == d') = false := by
    simp only [beq_eq_false_iff_ne, ne_eq]
    exact fun hc => h hc.symm
  rw [this]

/-- Each fresh, distinct, failing `getRobots` call grows the cache by exactly
one entry: the failure paths bypass the eviction entirely. -/
theorem runGetRobots_fail_length (calls : List (String × RobotsOutcome)) :
    ∀ cache : RobotsCache,
    (calls.map Prod.fst).Nodup →
    (∀ d ∈ calls.map Prod.fst, robotsLookup cache d = none) →
    (∀ c ∈ calls, c.2 = RobotsOutcome.fetchError) →
    (runGetRobots cache calls).length = cache.length + calls.length := by
  induction calls with
  | nil => intro cache _ _ _; simp [runGetRobots]
  | cons c rest ih =>
    intro cache hnodup hfresh hfail
    obtain ⟨d, o⟩ := c
    have ho : o = RobotsOutcome.fetchError := hfail (d, o) (List.mem_cons_self _ _)
    subst ho
    have hmiss : robotsLookup cache d = none := hfresh d (by simp)
    have hstep : (getRobots cache d RobotsOutcome.fetchError).1 = (d, none) :: cache := by
      simp [getRobots, hmiss]
    simp only [runGetRobots, hstep]
    have hdnotin : d ∉ rest.map Prod.fst := by
      simp only [List.map_cons, List.nodup_cons] at hnodup
      exact hnodup.1
    have hfresh2 : ∀ d' ∈ rest.map Prod.fst,
        robotsLookup ((d, none) :: cache) d' = none := by
      intro d' hd'
      have hne : d' ≠ d := fun h => hdnotin (h ▸ hd')
      rw [robotsLookup_cons_ne cache d d' none hne]
      exact hfresh d' (by simp [hd'])
    have hnodup2 : (rest.map Prod.fst).Nodup := by
      simp only [List.map_cons, List.nodup_cons] at hnodup
      exact hnodup.2
    have hfail2 : ∀ c ∈ rest, c.2 = RobotsOutcome.fetchError :=
      fun c hc => hfail c (List.mem_cons_of_mem _ hc)
    rw [ih ((d, none) :: cache) hnodup2 hfresh2 hfail2]
    simp
    omega

/-- 1001 distinct domains, each failing (e.g. unreachable hosts). -/
def c5domains : List String :=
  (List.range 1001).map (fun n => String.mk (List.replicate n 'a'))

def c5calls : List (String × RobotsOutcome) :=
  c5domains.map (fun d => (d, RobotsOutcome.fetchError))

theorem c5domains_nodup : c5domains.Nodup := by
  apply List.Nodup.map
  · intro a b h
    have hd : List.replicate a 'a' = List.replicate b 'a' := congrArg String.data h
    have := congrArg List.length hd
    simpa using this
  · exact List.nodup_range 1001

set_option maxRecDepth 4000 in
/-- C5 refuted on the code: starting from an empty cache, 1001 `getRobots`
calls on distinct domains whose robots fetch fails leave 1001 entries in the
cache — the failure paths insert the allow-all sentinel without evicting, so
the stated 1000-entry bound does not hold over arbitrary call sequences. -/
theorem robots_cache_exceeds_bound_on_failure_paths :
    (runGetRobots [] c5calls).length = 1001 ∧
    maxRobotsCacheSize < (runGetRobots [] c5calls).length := by
  have hmapfst : c5calls.map Prod.fst = c5domains := by
    unfold c5calls
    rw [List.map_map]
    show List.map (fun d => d) c5domains = c5domains
    simp
  have hlen : (runGetRobots [] c5calls).length =
      ([] : RobotsCache).length + c5calls.length := by
    apply runGetRobots_fail_length c5calls []
    · rw [hmapfst]; exact c5domains_nodup
    · intro d _; rfl
    · intro c hc
      obtain ⟨d, _, rfl⟩ := List.mem_map.mp hc
      rfl
  have hcalls : c5calls.length = 1001 := by
    unfold c5calls c5domains
    rw [List.length_map, List.length_map, List.length_range]
  have hfinal : (runGetRobots [] c5calls).length = 1001 := by
    rw [hlen, hcalls]
    rfl
  rw [hfinal]
  exact ⟨rfl, by decide⟩

/-! ## SSRF guard (fetch.go and internal/ssrf/ssrf.go): claims C3 and C7

IP addresses are modelled structurally: IPv4 as four byte values, IPv6 as its
16 bytes.  The predicates below are the Go `net.IP` classification methods as
used by `isPrivateIP`. -/

inductive IPAddr where
  | v4 (a b c d : Nat)
  /-- 16 bytes -/
  | v6 (bytes : List Nat)
deriving DecidableEq, Repr

/-- The IPv6 loopback `::1`. -/
def loopback6 : List Nat := List.replicate 15 0 ++ [1]

/-- The IPv6 unspecified address `::`. -/
def zero16 : List Nat := List.replicate 16 0

/-- `net.IP.IsLoopback`: 127.0.0.0/8 or ::1. -/
def ipIsLoopback : IPAddr → Bool
  | IPAddr.v4 a _ _ _ => a == 127
  | IPAddr.v6 bs => bs == loopback6

/-- `net.IP.IsPrivate`: 10/8, 172.16/12 (`ip[1]&0xf0 == 16`, i.e. second byte
in 16..31), 192.168/16; IPv6 unique-local fc00::/7 (`ip[0]&0xfe == 0xfc`). -/
def ipIsPrivate : IPAddr → Bool
  | IPAddr.v4 a b _ _ =>
      a == 10 || (a == 172 && decide (16 ≤ b) && decide (b ≤ 31)) ||
      (a == 192 && b == 168)
  | IPAddr.v6 bs => bs.headD 0 &&& 0xfe == 0xfc

/-- `net.IP.IsLinkLocalUnicast`: 169.254/16; fe80::/10. -/
def ipIsLinkLocalUnicast : IPAddr → Bool
  | IPAddr.v4 a b _ _ => a == 169 && b == 254
  | IPAddr.v6 bs => bs.headD 0 == 0xfe && (bs.getD 1 0) &&& 0xc0 == 0x80

/-- `net.IP.IsLinkLocalMulticast`: 224.0.0/24; ff02::/16. -/
def ipIsLinkLocalMulticast : IPAddr → Bool
  | IPAddr.v4 a b c _ => a == 224 && b == 0 && c == 0
  | IPAddr.v6 bs => bs.headD 0 == 0xff && (bs.getD 1 0) &&& 0x0f == 0x02

/-- `net.IP.IsUnspecified`: 0.0.0.0 or ::. -/
def ipIsUnspecified : IPAddr → Bool
  | IPAddr.v4 a b c d => a == 0 && b == 0 && c == 0 && d == 0
  | IPAddr.v6 bs => bs == zero16

/-- `isPrivateIP` from fetch.go (identical in internal/ssrf/ssrf.go). -/
def isPrivateIP (ip : IPAddr) : Bool :=
  ipIsLoopback ip || ipIsPrivate ip || ipIsLinkLocalUnicast ip ||
  ipIsLinkLocalMulticast ip || ipIsUnspecified ip

/-- The host component of a URL after `net.SplitHostPort` removed any port:
either a literal IP (`net.ParseIP` succeeds) or a DNS name. -/
inductive Host where
  | ip (addr : IPAddr)
  | name (hostname : String)
deriving DecidableEq, Repr

/-- The DNS resolver (`net.LookupHost`): resolved addresses, or a lookup
error. -/
def Resolver := String → Except String (List IPAddr)

/-- `validateHost` from fetch.go (identically `ssrf.ValidateHost`): a literal
IP is rejected iff private; a name is resolved and rejected if the lookup
fails or any resolved address is private. -/
def validateHost (resolver : Resolver) : Host → Except String Unit
  | Host.ip addr =>
      if isPrivateIP addr then Except.error "blocked: private IP"
      else Except.ok ()
  | Host.name h =>
      match resolver h with
      | Except.error e =>
          Except.error ("DNS lookup failed for " ++ h ++ ": " ++ e)
      | Except.ok addrs =>
          if addrs.any isPrivateIP then
            Except.error ("blocked: " ++ h ++ " resolves to private IP")
          else Except.ok ()

/-- Network behaviour of the GET issued by `fetchURL` once the SSRF check has
passed: the `httpClient.Do` error, a body-read error, or a response. -/
inductive NetOutcome where
  | doError (msg : String)
  | readError (statusCode : Int) (contentType : String) (msg : String)
  | response (statusCode : Int) (contentType : String) (body : List Nat)
deriving DecidableEq, Repr

/-- `fetchURL` from fetch.go on the URL's host (durations fixed to 0; the
`http.NewRequestWithContext` error branch is not modelled since `host` is the
already-parsed URL host). -/
def fetchURL (resolver : Resolver) (host : Host) (outcome : NetOutcome) :
    FetchResult :=
  match validateHost resolver host with
  | Except.error e =>
      { success := false, statusCode := 0, contentLength := 0, contentType := "",
        durationMs := 0, error := "SSRF blocked: " ++ e, body := [] }
  | Except.ok _ =>
      match outcome with
      | NetOutcome.doError msg =>
          { success := false, statusCode := 0, contentLength := 0,
            contentType := "", durationMs := 0, error := msg, body := [] }
      | NetOutcome.readError sc ct msg =>
          { success := false, statusCode := sc, contentLength := 0,
            contentType := ct, durationMs := 0, error := "read error: " ++ msg,
            body := [] }
      | NetOutcome.response sc ct body =>
          { success := decide (200 ≤ sc) && decide (sc < 400), statusCode := sc,
            contentLength := (body.length : Int), contentType := ct,
            durationMs := 0, error := "", body := body }

/-- A string contains the substring `SSRF`. -/
def containsSSRF (s : String) : Prop :=
  ∃ pre post, s = pre ++ ("SSRF" ++ post)

/-- The IP ranges enumerated by the claim: 127.0.0.0/8, ::1, 10.0.0.0/8,
172.16.0.0/12, 192.168.0.0/16, 169.254.0.0/16, 0.0.0.0 and ::. -/
def inClaimedRanges : IPAddr → Bool
  | IPAddr.v4 a b c d =>
      a == 127 || a == 10 ||
      (a == 172 && decide (16 ≤ b) && decide (b ≤ 31)) ||
      (a == 192 && b == 168) || (a == 169 && b == 254) ||
      (a == 0 && b == 0 && c == 0 && d == 0)
  | IPAddr.v6 bs => bs == loopback6 || bs == zero16

theorem isPrivateIP_of_inClaimedRanges (ip : IPAddr)
    (h : inClaimedRanges ip = true) : isPrivateIP ip = true := by
  cases ip with
  | v4 a b c d =>
    simp only [inClaimedRanges, Bool.or_eq_true, Bool.and_eq_true, beq_iff_eq,
      decide_eq_true_eq] at h
    simp only [isPrivateIP, ipIsLoopback, ipIsPrivate, ipIsLinkLocalUnicast,
      ipIsLinkLocalMulticast, ipIsUnspecified, Bool.or_eq_true,
      Bool.and_eq_true, beq_iff_eq, decide_eq_true_eq]
    tauto
  | v6 bs =>
    simp only [inClaimedRanges, Bool.or_eq_true, beq_iff_eq] at h
    simp only [isPrivateIP, ipIsLoopback, ipIsUnspecified, Bool.or_eq_true,
      beq_iff_eq]
    tauto

/-! ## Claim C7 -/

/-- C7: the early-rejection check rejects every literal IP in 127.0.0.0/8,
::1, 10.0.0.0/8, 172.16.0.0/12, 192.168.0.0/16, 169.254.0.0/16, 0.0.0.0 and
::, and every hostname whose DNS resolution contains such an address; on
rejection the fetcher returns success = false, status code 0, and an error
message containing `SSRF`. -/
theorem ssrf_early_rejection (resolver : Resolver) :
    (∀ addr : IPAddr, inClaimedRanges addr = true →
      validateHost resolver (Host.ip addr) = Except.error "blocked: private IP" ∧
      ∀ outcome, (fetchURL resolver (Host.ip addr) outcome).success = false ∧
        (fetchURL resolver (Host.ip addr) outcome).statusCode = 0 ∧
        containsSSRF (fetchURL resolver (Host.ip addr) outcome).error) ∧
    (∀ h addrs addr, resolver h = Except.ok addrs → addr ∈ addrs →
      inClaimedRanges addr = true →
      (∃ e, validateHost resolver (Host.name h) = Except.error e) ∧
      ∀ outcome, (fetchURL resolver (Host.name h) outcome).success = false ∧
        (fetchURL resolver (Host.name h) outcome).statusCode = 0 ∧
        containsSSRF (fetchURL resolver (Host.name h) outcome).error) := by
  constructor
  · intro addr h
    have hpriv := isPrivateIP_of_inClaimedRanges addr h
    have hval : validateHost resolver (Host.ip addr) =
        Except.error "blocked: private IP" := by
      simp [validateHost, hpriv]
    refine ⟨hval, ?_⟩
    intro outcome
    have hf : fetchURL resolver (Host.ip addr) outcome =
        { success := false, statusCode := 0, contentLength := 0,
          contentType := "", durationMs := 0,
          error := "SSRF blocked: " ++ "blocked: private IP", body := [] } := by
      simp [fetchURL, hval]
    rw [hf]
    exact ⟨rfl, rfl, "", " blocked: blocked: private IP", rfl⟩
  · intro h addrs addr hres hmem hrange
    have hpriv := isPrivateIP_of_inClaimedRanges addr hrange
    have hany : addrs.any isPrivateIP = true :=
      List.any_eq_true.mpr ⟨addr, hmem, hpriv⟩
    have hval : validateHost resolver (Host.name h) =
        Except.error ("blocked: " ++ h ++ " resolves to private IP") := by
      simp [validateHost, hres, hany]
    refine ⟨⟨_, hval⟩, ?_⟩
    intro outcome
    have hf : fetchURL resolver (Host.name h) outcome =
        { success := false, statusCode := 0, contentLength := 0,
          contentType := "", durationMs := 0,
          error := "SSRF blocked: " ++ ("blocked: " ++ h ++ " resolves to private IP"),
          body := [] } := by
      simp [fetchURL, hval]
    rw [hf]
    exact ⟨rfl, rfl, "", " blocked: blocked: " ++ h ++ " resolves to private IP", rfl⟩

/-- Witness for `ssrf_early_rejection`: the AWS metadata address
169.254.169.254 as a literal, and a hostname resolving to 10.0.0.1. -/
theorem ssrf_early_rejection_witness :
    inClaimedRanges (IPAddr.v4 169 254 169 254) = true ∧
    (fetchURL (fun _ => Except.ok [IPAddr.v4 10 0 0 1])
      (Host.ip (IPAddr.v4 169 254 169 254))
      (NetOutcome.response 200 "text/html" [])).success = false ∧
    (fetchURL (fun _ => Except.ok [IPAddr.v4 10 0 0 1])
      (Host.name "evil.example")
      (NetOutcome.response 200 "text/html" [])).statusCode = 0 := by
  have h := ssrf_early_rejection (fun _ => Except.ok [IPAddr.v4 10 0 0 1])
  refine ⟨by decide, ?_, ?_⟩
  · exact ((h.1 (IPAddr.v4 169 254 169 254) (by decide)).2
      (NetOutcome.response 200 "text/html" [])).1
  · exact ((h.2 "evil.example" [IPAddr.v4 10 0 0 1] (IPAddr.v4 10 0 0 1)
      rfl (by simp) (by decide)).2
      (NetOutcome.response 200 "text/html" [])).2.1

/-! ## Claim C3: the connect-time SSRF transport -/

/-- The `Control` function of the dialer built by `ssrf.NewTransport`
(internal/ssrf/ssrf.go lines 54–72): it is invoked with the already-resolved
socket address `ip:port` immediately before the TCP connection is made, and
fails the connection when the address is private.  (Go receives the address as
a string and re-parses it; dial addresses are always literal `ip:port`,
modelled here as the pair.) -/
def dialerControl (address : IPAddr × Nat) : Except String Unit :=
  if isPrivateIP address.1 then
    Except.error "SSRF dialer: blocked connection to private IP"
  else Except.ok ()

structure SSRFTransport where
  control : IPAddr × Nat → Except String Unit

/-- `ssrf.NewTransport` from internal/ssrf/ssrf.go: an HTTP transport whose
dialer carries `dialerControl` as its pre-connect callback. -/
def NewTransport : SSRFTransport :=
  { control := dialerControl }

structure HTTPClient where
  transport : SSRFTransport
  timeoutSeconds : Nat

/-- Modelled from the spec: the shared HTTP client built by the crawler's
constructor.  The current `NewCrawler` (the lambda's final main.go is absent
from the sources here; its `ssrfSafeTransport()` wiring is attested by
security_test.go and the audit notes) installs the connect-time SSRF transport
of `ssrf.NewTransport` on the client together with the 10-second total timeout
(`httpTimeout = 10 * time.Second`, present in the sources). -/
def crawlerHTTPClient : HTTPClient :=
  { transport := NewTransport, timeoutSeconds := 10 }

/-- C3: the fetcher's transport installs a pre-connect callback that fails the
connection with an identifiable SSRF error whenever the resolved socket
address is private, loopback, link-local, or unspecified, and the client
enforces a 10-second total timeout. -/
theorem transport_connect_time_ssrf_check (addr : IPAddr) (port : Nat)
    (hbad : ipIsPrivate addr = true ∨ ipIsLoopback addr = true ∨
      ipIsLinkLocalUnicast addr = true ∨ ipIsLinkLocalMulticast addr = true ∨
      ipIsUnspecified addr = true) :
    (∃ e, crawlerHTTPClient.transport.control (addr, port) = Except.error e ∧
      containsSSRF e) ∧
    crawlerHTTPClient.timeoutSeconds = 10 := by
  have hpriv : isPrivateIP addr = true := by
    simp only [isPrivateIP, Bool.or_eq_true]
    tauto
  refine ⟨⟨"SSRF dialer: blocked connection to private IP", ?_, ?_⟩, rfl⟩
  · show dialerControl (addr, port) = _
    simp [dialerControl, hpriv]
  · exact ⟨"", " dialer: blocked connection to private IP", rfl⟩

/-- Witness for `transport_connect_time_ssrf_check`: connecting to the AWS
metadata endpoint 169.254.169.254:80 is blocked. -/
theorem transport_connect_time_ssrf_check_witness :
    ipIsLinkLocalUnicast (IPAddr.v4 169 254 169 254) = true ∧
    crawlerHTTPClient.timeoutSeconds = 10 := by
  have h := transport_connect_time_ssrf_check (IPAddr.v4 169 254 169 254) 80
    (Or.inr (Or.inr (Or.inl (by decide))))
  exact ⟨by decide, h.2⟩

/-! ## Claim C8: batched link fan-out (links.go, domain.go)

`urls.GetHost` (URL parsing) and `urls.Hash` (SHA-256 hex) are semantic
parameters of the embedding; the DynamoDB allowlist and URL-record key set are
threaded explicitly. -/

/-- `domainStatusActive` constant. -/
def domainStatusActive : String := "active"

/-- The store state consulted by the fan-out loop: `allowed_domain#<host>`
records (host → status) and the set of existing URL-record keys. -/
structure LinkStores where
  allowed : List (String × String)
  urlKeys : List String
deriving DecidableEq, Repr

/-- `isDomainAllowed` from domain.go: point read of `allowed_domain#<host>`;
true iff the record exists with `status = active`. -/
def isDomainAllowed (stores : LinkStores) (host : String) : Bool :=
  match stores.allowed.find? (fun p => p.1 == host) with
  | some p => p.2 == domainStatusActive
  | none => false

/-- `maybeAddDomain` from domain.go: conditional insert with
`attribute_not_exists(url_hash)`; true iff the host record did not exist
(the inserted record's `discovered_from`/`created_at` attributes play no role
in the claims). -/
def maybeAddDomain (stores : LinkStores) (host : String) : Bool × LinkStores :=
  match stores.allowed.find? (fun p => p.1 == host) with
  | some _ => (false, stores)
  | none =>
      (true, { stores with allowed := (host, domainStatusActive) :: stores.allowed })

/-- The conditional `PutItem` of links.go lines 43–54
(`attribute_not_exists(url_hash)`): true iff the URL record was inserted. -/
def tryClaimURLInsert (stores : LinkStores) (urlHash : String) : Bool × LinkStores :=
  if stores.urlKeys.contains urlHash then (false, stores)
  else (true, { stores with urlKeys := urlHash :: stores.urlKeys })

/-- The filtering loop of `enqueueLinks` (links.go lines 25–57): for each link
in order, skip empty hosts; pass the allowlist gate (active, or newly
auto-discovered); pass the conditional URL insert; collect survivors into
`pending`. -/
def collectPending (getHost hash : String → String) :
    LinkStores → List String → LinkStores × List String
  | stores, [] => (stores, [])
  | stores, link :: rest =>
    let host := getHost link
    if host == "" then collectPending getHost hash stores rest
    else
      let gate :=
        if isDomainAllowed stores host then (true, stores)
        else maybeAddDomain stores host
      if gate.1 = false then collectPending getHost hash gate.2 rest
      else
        let ins := tryClaimURLInsert gate.2 (hash link)
        if ins.1 = false then collectPending getHost hash ins.2 rest
        else
          let r := collectPending getHost hash ins.2 rest
          (r.1, link :: r.2)

/-- A SendMessageBatch entry: id `strconv.Itoa(i+j)`, body = the link, and the
`depth` message attribute. -/
structure BatchEntry where
  id : Nat
  body : String
  depthAttr : Int
deriving DecidableEq, Repr

structure BatchRequest where
  entries : List BatchEntry
deriving DecidableEq, Repr

/-- The transport's response to one SendMessageBatch call: a whole-request
error, or success with the number of entries in the `Failed` list. -/
inductive BatchResponse where
  | sendError (msg : String)
  | ok (failedCount : Nat)
deriving DecidableEq, Repr

/-- The entries of one SendMessageBatch request built from a batch slice:
ids `i+j`, body = the link, `depth` attribute on every entry. -/
def mkEntries (i : Nat) (depth : Int) (batch : List String) : List BatchEntry :=
  ((List.range batch.length).zip batch).map
    (fun p => { id := i + p.1, body := p.2, depthAttr := depth })

/-- The body of the batch-send loop of `enqueueLinks` (links.go lines 60–97),
with an explicit structural fuel (any fuel ≥ the list length computes the
loop; see `sendBatchesAux_fuel`): slices of at most `sqsBatchSize = 10`,
a request error contributes nothing, a success contributes
`len(batch) - len(result.Failed)`.  The transport is indexed by the loop
offset `i`. -/
def sendBatchesAux (transport : Nat → BatchResponse) (depth : Int) :
    Nat → Nat → List String → Int × List BatchRequest
  | _, _, [] => (0, [])
  | 0, _, _ :: _ => (0, [])
  | fuel + 1, i, x :: xs =>
    let batch := (x :: xs).take 10
    let rest := sendBatchesAux transport depth fuel (i + 10) ((x :: xs).drop 10)
    match transport i with
    | BatchResponse.sendError _ =>
        (rest.1, ({ entries := mkEntries i depth batch } : BatchRequest) :: rest.2)
    | BatchResponse.ok failedCount =>
        ((batch.length : Int) - (failedCount : Int) + rest.1,
          ({ entries := mkEntries i depth batch } : BatchRequest) :: rest.2)

/-- The batch-send loop of `enqueueLinks`: run the loop body with sufficient
fuel.  Returns (enqueued count, requests issued, in order). -/
def sendBatches (transport : Nat → BatchResponse) (depth : Int)
    (i : Nat) (pending : List String) : Int × List BatchRequest :=
  sendBatchesAux transport depth pending.length i pending

/-- Fuel irrelevance: any fuel at least the list length computes the loop. -/
theorem sendBatchesAux_fuel (transport : Nat → BatchResponse) (depth : Int) :
    ∀ (fuel : Nat) (pending : List String), pending.length ≤ fuel → ∀ i,
      sendBatchesAux transport depth fuel i pending =
        sendBatchesAux transport depth pending.length i pending := by
  intro fuel
  induction fuel using Nat.strong_induction_on with
  | _ fuel ih =>
    intro pending hlen i
    cases pending with
    | nil => cases fuel <;> rfl
    | cons x xs =>
      cases fuel with
      | zero => simp at hlen
      | succ f =>
        have h1 : ((x :: xs).drop 10).length ≤ f := by
          rw [List.length_drop]
          simp only [List.length_cons] at hlen ⊢
          omega
        have h2 : ((x :: xs).drop 10).length ≤ xs.length := by
          rw [List.length_drop]
          simp only [List.length_cons]
          omega
        have hxf : xs.length ≤ f := by
          simp only [List.length_cons] at hlen
          omega
        show sendBatchesAux transport depth (f + 1) i (x :: xs) =
          sendBatchesAux transport depth (xs.length + 1) i (x :: xs)
        simp only [sendBatchesAux]
        rw [ih f (by omega) ((x :: xs).drop 10) h1 (i + 10),
          ih xs.length (by omega) ((x :: xs).drop 10) h2 (i + 10)]

/-- `enqueueLinks` from links.go: run the filtering loop, then batch-send the
pending list starting at offset 0.  Returns (enqueued count, requests, final
stores). -/
def enqueueLinks (getHost hash : String → String)
    (transport : Nat → BatchResponse) (stores : LinkStores)
    (links : List String) (depth : Int) :
    Int × List BatchRequest × LinkStores :=
  let c := collectPending getHost hash stores links
  let s := sendBatches transport depth 0 c.2
  (s.1, s.2, c.1)


theorem mkEntries_bodies (i : Nat) (d : Int) (b : List String) :
    (mkEntries i d b).map (fun e => e.body) = b := by
  unfold mkEntries
  rw [List.map_map]
  have h : ((fun e : BatchEntry => e.body) ∘
      (fun p : Nat × String => { id := i + p.1, body := p.2, depthAttr := d })) =
      Prod.snd := by
    funext p
    rfl
  rw [h]
  exact List.map_snd_zip _ _ (by simp)

theorem mkEntries_length (i : Nat) (d : Int) (b : List String) :
    (mkEntries i d b).length = b.length := by
  simp [mkEntries]

theorem sendBatches_cons (tr : Nat → BatchResponse) (d : Int) (i : Nat)
    (x : String) (xs : List String) :
    sendBatches tr d i (x :: xs) =
      match tr i with
      | BatchResponse.sendError _ =>
          ((sendBatches tr d (i + 10) ((x :: xs).drop 10)).1,
            ({ entries := mkEntries i d ((x :: xs).take 10) } : BatchRequest) ::
              (sendBatches tr d (i + 10) ((x :: xs).drop 10)).2)
      | BatchResponse.ok fc =>
          ((((x :: xs).take 10).length : Int) - (fc : Int) +
              (sendBatches tr d (i + 10) ((x :: xs).drop 10)).1,
            ({ entries := mkEntries i d ((x :: xs).take 10) } : BatchRequest) ::
              (sendBatches tr d (i + 10) ((x :: xs).drop 10)).2) := by
  have h2 : ((x :: xs).drop 10).length ≤ xs.length := by
    rw [List.length_drop]
    simp only [List.length_cons]
    omega
  show sendBatchesAux tr d (x :: xs).length i (x :: xs) = _
  rw [List.length_cons]
  simp only [sendBatchesAux]
  rw [sendBatchesAux_fuel tr d xs.length ((x :: xs).drop 10) h2 (i + 10)]
  rfl

theorem sendBatches_spec (tr : Nat → BatchResponse) (d : Int) :
    ∀ (n : Nat) (pending : List String), pending.length ≤ n → ∀ i,
      (∀ req ∈ (sendBatches tr d i pending).2,
        0 < req.entries.length ∧ req.entries.length ≤ 10 ∧
        ∀ e ∈ req.entries, e.depthAttr = d) ∧
      ((sendBatches tr d i pending).2.map
        (fun r => r.entries.map (fun e => e.body))).flatten = pending ∧
      ((∀ k, tr k = BatchResponse.ok 0) →
        (sendBatches tr d i pending).1 = (pending.length : Int)) := by
  intro n
  induction n with
  | zero =>
    intro pending hlen i
    have hnil : pending = [] := List.length_eq_zero.mp (Nat.le_zero.mp hlen)
    subst hnil
    exact ⟨by simp [sendBatches, sendBatchesAux], by simp [sendBatches, sendBatchesAux], by simp [sendBatches, sendBatchesAux]⟩
  | succ m ih =>
    intro pending hlen i
    cases pending with
    | nil =>
      exact ⟨by simp [sendBatches, sendBatchesAux], by simp [sendBatches, sendBatchesAux], by simp [sendBatches, sendBatchesAux]⟩
    | cons x xs =>
      have hdrop : ((x :: xs).drop 10).length ≤ m := by
        rw [List.length_drop]
        simp only [List.length_cons] at hlen ⊢
        omega
      have hrest := ih ((x :: xs).drop 10) hdrop (i + 10)
      have hhead : 0 < (mkEntries i d ((x :: xs).take 10)).length ∧
          (mkEntries i d ((x :: xs).take 10)).length ≤ 10 ∧
          ∀ e ∈ mkEntries i d ((x :: xs).take 10), e.depthAttr = d := by
        refine ⟨?_, ?_, ?_⟩
        · rw [mkEntries_length, List.length_take]
          simp
        · rw [mkEntries_length, List.length_take]
          omega
        · intro e he
          simp only [mkEntries, List.mem_map] at he
          obtain ⟨p, _, rfl⟩ := he
          rfl
      cases htr : tr i with
      | sendError msg =>
        rw [sendBatches_cons]
        simp only [htr]
        refine ⟨?_, ?_, ?_⟩
        · intro req hreq
          rcases List.mem_cons.mp hreq with hh | ht
          · subst hh
            exact hhead
          · exact hrest.1 req ht
        · simp only [List.map_cons, List.flatten_cons]
          rw [mkEntries_bodies, hrest.2.1]
          exact List.take_append_drop 10 (x :: xs)
        · intro hok
          exact absurd (hok i) (by rw [htr]; simp)
      | ok fc =>
        rw [sendBatches_cons]
        simp only [htr]
        refine ⟨?_, ?_, ?_⟩
        · intro req hreq
          rcases List.mem_cons.mp hreq with hh | ht
          · subst hh
            exact hhead
          · exact hrest.1 req ht
        · simp only [List.map_cons, List.flatten_cons]
          rw [mkEntries_bodies, hrest.2.1]
          exact List.take_append_drop 10 (x :: xs)
        · intro hok
          have hfc : fc = 0 := by
            have h2 := hok i
            rw [htr] at h2
            exact BatchResponse.ok.inj h2
          subst hfc
          rw [hrest.2.2 hok]
          have hsum : ((x :: xs).take 10).length + ((x :: xs).drop 10).length =
              (x :: xs).length := by
            rw [← List.length_append, List.take_append_drop]
          push_cast
          omega

/-- The count contribution of the request at (0-based) position `p.1` in the
send loop started at offset `i`: nothing if the request errored, its size
minus the transport-reported `Failed` count otherwise. -/
def requestContribution (tr : Nat → BatchResponse) (i : Nat)
    (p : Nat × BatchRequest) : Int :=
  match tr (i + 10 * p.1) with
  | BatchResponse.sendError _ => 0
  | BatchResponse.ok fc => (p.2.entries.length : Int) - (fc : Int)

theorem requestContribution_shift (tr : Nat → BatchResponse) (i : Nat) :
    (requestContribution tr i ∘ Prod.map (· + 1) id) = requestContribution tr (i + 10) := by
  funext p
  obtain ⟨j, req⟩ := p
  simp only [Function.comp_apply, Prod.map_apply, id_eq, requestContribution]
  rw [show i + 10 * (j + 1) = i + 10 + 10 * j by ring]

theorem sendBatches_count (tr : Nat → BatchResponse) (d : Int) :
    ∀ (n : Nat) (pending : List String), pending.length ≤ n → ∀ i,
      (sendBatches tr d i pending).1 =
        (((sendBatches tr d i pending).2.enum).map (requestContribution tr i)).sum := by
  intro n
  induction n with
  | zero =>
    intro pending hlen i
    have hnil : pending = [] := List.length_eq_zero.mp (Nat.le_zero.mp hlen)
    subst hnil
    simp [sendBatches, sendBatchesAux]
  | succ m ih =>
    intro pending hlen i
    cases pending with
    | nil => simp [sendBatches, sendBatchesAux]
    | cons x xs =>
      have hdrop : ((x :: xs).drop 10).length ≤ m := by
        rw [List.length_drop]
        simp only [List.length_cons] at hlen ⊢
        omega
      have hrest := ih ((x :: xs).drop 10) hdrop (i + 10)
      rw [sendBatches_cons]
      cases htr : tr i with
      | sendError msg =>
        simp only []
        rw [List.enum_cons', List.map_cons, List.sum_cons, List.map_map,
          requestContribution_shift, ← hrest]
        have hc : requestContribution tr i (0, ({ entries := mkEntries i d ((x :: xs).take 10) } : BatchRequest)) = 0 := by
          simp only [requestContribution]
          rw [show i + 10 * 0 = i by ring, htr]
        rw [hc]
        omega
      | ok fc =>
        simp only []
        rw [List.enum_cons', List.map_cons, List.sum_cons, List.map_map,
          requestContribution_shift, ← hrest]
        have hc : requestContribution tr i (0, ({ entries := mkEntries i d ((x :: xs).take 10) } : BatchRequest)) =
            (((x :: xs).take 10).length : Int) - (fc : Int) := by
          simp only [requestContribution]
          rw [show i + 10 * 0 = i by ring, htr]
          rw [mkEntries_length]
        rw [hc]

/-- Scenario G inputs: 25 links (distinct nonempty strings), all on an
allowed domain, none previously known. -/
def c8links : List String :=
  (List.range 25).map (fun n => String.mk (List.replicate (n + 1) 'b'))

def c8stores : LinkStores := { allowed := [("example.com", "active")], urlKeys := [] }

def c8getHost : String → String := fun _ => "example.com"

def c8hash : String → String := fun s => s

def c8transportOK : Nat → BatchResponse := fun _ => BatchResponse.ok 0

/-- A transport whose first request reports 2 failed entries. -/
def c8transportF : Nat → BatchResponse :=
  fun i => if i == 0 then BatchResponse.ok 2 else BatchResponse.ok 0

/-- C8: link fan-out sends the pending list (the links that passed the host,
allowlist, and conditional URL-insert gates) in batches of at most 10 entries
per request, each entry carrying the `depth` attribute; each request's
transport-reported `Failed` entries are subtracted from the count, and the
function returns the number of links successfully enqueued.  25 new links
yield exactly 3 requests of sizes 10, 10, 5 and a count of 25; with 2 entries
failed in the first request the count is 23. -/
theorem link_fanout_batching (getHost hash : String → String)
    (transport : Nat → BatchResponse) (stores : LinkStores)
    (links : List String) (depth : Int) :
    (∀ req ∈ (enqueueLinks getHost hash transport stores links depth).2.1,
      0 < req.entries.length ∧ req.entries.length ≤ 10 ∧
      ∀ e ∈ req.entries, e.depthAttr = depth) ∧
    ((enqueueLinks getHost hash transport stores links depth).2.1.map
      (fun r => r.entries.map (fun e => e.body))).flatten =
      (collectPending getHost hash stores links).2 ∧
    (enqueueLinks getHost hash transport stores links depth).1 =
      ((((enqueueLinks getHost hash transport stores links depth).2.1.enum).map
        (requestContribution transport 0)).sum) ∧
    ((∀ k, transport k = BatchResponse.ok 0) →
      (enqueueLinks getHost hash transport stores links depth).1 =
        (((collectPending getHost hash stores links).2.length : Int))) ∧
    ((enqueueLinks c8getHost c8hash c8transportOK c8stores c8links 1).2.1.map
      (fun r => r.entries.length) = [10, 10, 5] ∧
     (enqueueLinks c8getHost c8hash c8transportOK c8stores c8links 1).1 = 25) ∧
    (enqueueLinks c8getHost c8hash c8transportF c8stores c8links 1).1 = 23 := by
  have hspec := sendBatches_spec transport depth
    ((collectPending getHost hash stores links).2.length)
    ((collectPending getHost hash stores links).2) le_rfl 0
  have hcount := sendBatches_count transport depth
    ((collectPending getHost hash stores links).2.length)
    ((collectPending getHost hash stores links).2) le_rfl 0
  exact ⟨hspec.1, hspec.2.1, hcount, hspec.2.2, by decide, by decide⟩

/-- Witness for `link_fanout_batching`: the all-success transport satisfies
the no-failure hypothesis of the count conjunct at the Scenario G inputs. -/
theorem link_fanout_batching_witness :
    (∀ k, c8transportOK k = BatchResponse.ok 0) ∧
    (enqueueLinks c8getHost c8hash c8transportOK c8stores c8links 1).1 =
      (((collectPending c8getHost c8hash c8stores c8links).2.length : Int)) := by
  have h := link_fanout_batching c8getHost c8hash c8transportOK c8stores c8links 1
  exact ⟨fun k => rfl, h.2.2.2.1 (fun k => rfl)⟩

/-! ## Claim C9: single-pass HTML extraction (internal/parser/parser.go)

The parsed HTML tree (`golang.org/x/net/html.Node` with its
FirstChild/NextSibling links) is modelled as a node together with its sibling
forest; `urls.Normalize` (resolution of an href against the base URL) is a
semantic parameter shared by all three traversals, exactly as the Go functions
share it.  `html.Parse` never fails on any byte input, so the parse-error
branches are unreachable and the traversals are compared on trees. -/

mutual
inductive HNode where
  | elem (name : String) (attrs : List (String × String)) (children : HForest)
  | textNode (s : String)
  /-- non-element, non-text nodes (Document, Comment, Doctype) -/
  | cont (children : HForest)

inductive HForest where
  | nil
  | cons (head : HNode) (tail : HForest)
end

/-- The elements whose subtrees `extractText` and `Extract` skip. -/
def skippedName (name : String) : Bool :=
  name == "script" || name == "style" || name == "noscript" ||
  name == "head" || name == "meta" || name == "link"

/-- The first `href` attribute of an element (the loop with `break` in
parser.go). -/
def hrefAttr (attrs : List (String × String)) : Option String :=
  (attrs.find? (fun a => a.1 == "href")).map (fun a => a.2)

/-- Append a normalized link if it is nonempty and unseen (the `seen` set is
exactly the set of collected links). -/
def addLink (normalize : String → String) (links : List String) (href : String) :
    List String :=
  let l := normalize href
  if l != "" && !links.contains l then links ++ [l] else links

/-- The link-collection step performed at an element node. -/
def linkStep (normalize : String → String) (name : String)
    (attrs : List (String × String)) (links : List String) : List String :=
  if name == "a" then
    match hrefAttr attrs with
    | some href => addLink normalize links href
    | none => links
  else links

/-- The text-accumulation step performed at a text node (trim; skip empty;
single-space separator between appended runs). -/
def textAppend (sb : String) (raw : String) : String :=
  let t := raw.trim
  if t == "" then sb
  else if sb.length > 0 then sb ++ " " ++ t
  else t

mutual
/-- The traversal of `extractLinks` (parser.go lines 27–45): collects links at
every `a` element and recurses into every child — it does NOT skip the
script/style/noscript/head/meta/link subtrees. -/
def linksNode (normalize : String → String) : HNode → List String → List String
  | HNode.elem name attrs children, links =>
      linksForest normalize children (linkStep normalize name attrs links)
  | HNode.textNode _, links => links
  | HNode.cont children, links => linksForest normalize children links

def linksForest (normalize : String → String) : HForest → List String → List String
  | HForest.nil, links => links
  | HForest.cons c cs, links =>
      linksForest normalize cs (linksNode normalize c links)
end

/-- `extractLinks(body, base)` on the parsed tree. -/
def extractLinks (normalize : String → String) (doc : HNode) : List String :=
  linksNode normalize doc []

mutual
/-- The traversal of `extractText` (parser.go lines 58–84): skips the
script/style/noscript/head/meta/link subtrees entirely; accumulates trimmed
nonempty text runs. -/
def textOfNode : HNode → String → String
  | HNode.elem name _ children, sb =>
      if skippedName name then sb else textOfForest children sb
  | HNode.textNode s, sb => textAppend sb s
  | HNode.cont children, sb => textOfForest children sb

def textOfForest : HForest → String → String
  | HForest.nil, sb => sb
  | HForest.cons c cs, sb => textOfForest cs (textOfNode c sb)
end

/-- `extractText(body)` on the parsed tree. -/
def extractText (doc : HNode) : String :=
  textOfNode doc ""

mutual
/-- The single-pass traversal of `Extract` (parser.go lines 112–151): skips
the script/style/noscript/head/meta/link subtrees for text AND links, collects
links at `a` elements, accumulates text at text nodes. -/
def extractNode (normalize : String → String) :
    HNode → List String × String → List String × String
  | HNode.elem name attrs children, acc =>
      if skippedName name then acc
      else extractForest normalize children
        (linkStep normalize name attrs acc.1, acc.2)
  | HNode.textNode s, acc => (acc.1, textAppend acc.2 s)
  | HNode.cont children, acc => extractForest normalize children acc

def extractForest (normalize : String → String) :
    HForest → List String × String → List String × String
  | HForest.nil, acc => acc
  | HForest.cons c cs, acc =>
      extractForest normalize cs (extractNode normalize c acc)
end

/-- `Extract(body, base)` on the parsed tree. -/
def Extract (normalize : String → String) (doc : HNode) : List String × String :=
  extractNode normalize doc ([], "")

mutual
/-- A subtree contains an element named `a`. -/
def hasAnchorNode : HNode → Bool
  | HNode.elem name _ children => name == "a" || hasAnchorForest children
  | HNode.textNode _ => false
  | HNode.cont children => hasAnchorForest children

def hasAnchorForest : HForest → Bool
  | HForest.nil => false
  | HForest.cons c cs => hasAnchorNode c || hasAnchorForest cs
end

mutual
/-- No `a` element occurs inside a skipped
(script/style/noscript/head/meta/link) subtree. -/
def noSkippedAnchorNode : HNode → Bool
  | HNode.elem name _ children =>
      if skippedName name then !hasAnchorForest children
      else noSkippedAnchorForest children
  | HNode.textNode _ => true
  | HNode.cont children => noSkippedAnchorForest children

def noSkippedAnchorForest : HForest → Bool
  | HForest.nil => true
  | HForest.cons c cs => noSkippedAnchorNode c && noSkippedAnchorForest cs
end

mutual
theorem linksNode_no_anchor (normalize : String → String) :
    ∀ (t : HNode), hasAnchorNode t = false → ∀ acc,
      linksNode normalize t acc = acc
  | HNode.elem name attrs children, h, acc => by
      simp only [hasAnchorNode, Bool.or_eq_false_iff] at h
      simp only [linksNode, linkStep, h.1]
      rw [if_neg (by simp)]
      exact linksForest_no_anchor normalize children h.2 acc
  | HNode.textNode s, _, acc => rfl
  | HNode.cont children, h, acc => by
      simp only [hasAnchorNode] at h
      simp only [linksNode]
      exact linksForest_no_anchor normalize children h acc

theorem linksForest_no_anchor (normalize : String → String) :
    ∀ (f : HForest), hasAnchorForest f = false → ∀ acc,
      linksForest normalize f acc = acc
  | HForest.nil, _, acc => rfl
  | HForest.cons c cs, h, acc => by
      simp only [hasAnchorForest, Bool.or_eq_false_iff] at h
      simp only [linksForest]
      rw [linksNode_no_anchor normalize c h.1 acc]
      exact linksForest_no_anchor normalize cs h.2 acc
end

theorem skippedName_not_anchor (name : String) (h : skippedName name = true) :
    (name == "a") = false := by
  simp only [skippedName, Bool.or_eq_true, beq_iff_eq] at h
  simp only [beq_eq_false_iff_ne, ne_eq]
  rcases h with ((((h | h) | h) | h) | h) | h <;> subst h <;> decide

mutual
theorem extractNode_text (normalize : String → String) :
    ∀ (t : HNode) (acc : List String × String),
      (extractNode normalize t acc).2 = textOfNode t acc.2
  | HNode.elem name attrs children, acc => by
      by_cases hs : skippedName name = true
      · simp only [extractNode, textOfNode, hs, if_pos]
      · simp only [Bool.not_eq_true] at hs
        simp only [extractNode, textOfNode, hs]
        rw [if_neg (by simp), if_neg (by simp)]
        exact extractForest_text normalize children _
  | HNode.textNode s, acc => rfl
  | HNode.cont children, acc => extractForest_text normalize children acc

theorem extractForest_text (normalize : String → String) :
    ∀ (f : HForest) (acc : List String × String),
      (extractForest normalize f acc).2 = textOfForest f acc.2
  | HForest.nil, acc => rfl
  | HForest.cons c cs, acc => by
      simp only [extractForest, textOfForest]
      rw [extractForest_text normalize cs (extractNode normalize c acc)]
      rw [extractNode_text normalize c acc]
end

mutual
theorem extractNode_links (normalize : String → String) :
    ∀ (t : HNode), noSkippedAnchorNode t = true → ∀ (acc : List String × String),
      (extractNode normalize t acc).1 = linksNode normalize t acc.1
  | HNode.elem name attrs children, h, acc => by
      by_cases hs : skippedName name = true
      · simp only [noSkippedAnchorNode, hs, if_pos, Bool.not_eq_true'] at h
        simp only [extractNode, hs, if_pos, linksNode, linkStep,
          skippedName_not_anchor name hs]
        rw [if_neg (by simp)]
        exact (linksForest_no_anchor normalize children h acc.1).symm
      · simp only [Bool.not_eq_true] at hs
        simp only [noSkippedAnchorNode, hs] at h
        rw [if_neg (by simp)] at h
        simp only [extractNode, linksNode, hs]
        rw [if_neg (by simp)]
        exact extractForest_links normalize children h _
  | HNode.textNode s, _, acc => rfl
  | HNode.cont children, h, acc => by
      simp only [noSkippedAnchorNode] at h
      simp only [extractNode, linksNode]
      exact extractForest_links normalize children h acc

theorem extractForest_links (normalize : String → String) :
    ∀ (f : HForest), noSkippedAnchorForest f = true → ∀ (acc : List String × String),
      (extractForest normalize f acc).1 = linksForest normalize f acc.1
  | HForest.nil, _, acc => rfl
  | HForest.cons c cs, h, acc => by
      simp only [noSkippedAnchorForest, Bool.and_eq_true] at h
      simp only [extractForest, linksForest]
      rw [extractForest_links normalize cs h.2 (extractNode normalize c acc)]
      rw [extractNode_links normalize c h.1 acc]
end

/-- The counterexample document:
`<noscript><a href="https://example.com/x"></a></noscript>` under the document
node.  On this href `urls.Normalize` returns its input unchanged (an absolute
http URL with no whitespace and no fragment), so the identity function
instantiates the shared normalizer faithfully here. -/
def c9tree : HNode :=
  HNode.cont (HForest.cons
    (HNode.elem "noscript" []
      (HForest.cons
        (HNode.elem "a" [("href", "https://example.com/x")] HForest.nil)
        HForest.nil))
    HForest.nil)

def c9normalize : String → String := fun s => s

/-- C9 refuted on the code: `extractLinks` does not skip the
script/style/noscript/head/meta/link subtrees, while `Extract` skips them for
both text and links; on a document with an anchor inside `<noscript>` the
single pass returns no links but the composition returns one, so
`Extract(body, base)` differs from
`(extractLinks(body, base), extractText(body))`. -/
theorem extract_single_pass_counterexample :
    extractLinks c9normalize c9tree = ["https://example.com/x"] ∧
    (Extract c9normalize c9tree).1 = [] ∧
    Extract c9normalize c9tree ≠
      (extractLinks c9normalize c9tree, extractText c9tree) := by
  refine ⟨rfl, rfl, ?_⟩
  intro h
  have h1 : (Extract c9normalize c9tree).1 =
      (extractLinks c9normalize c9tree, extractText c9tree).1 :=
    congrArg Prod.fst h
  have h2 : ([] : List String) = ["https://example.com/x"] := h1
  exact absurd h2 (by simp)

/-- C9 amended: the single pass produces the composition's text on every
document, and the composition's whole `(links, text)` pair on every document
with no `a` element inside a skipped subtree — the subtree skip applies to
text accumulation in both variants, but `extractLinks` does not skip those
subtrees for link extraction. -/
theorem extract_single_pass_amended (normalize : String → String) (doc : HNode) :
    (Extract normalize doc).2 = extractText doc ∧
    (noSkippedAnchorNode doc = true →
      Extract normalize doc = (extractLinks normalize doc, extractText doc)) := by
  constructor
  · exact extractNode_text normalize doc ([], "")
  · intro h
    have hl := extractNode_links normalize doc h ([], "")
    have ht := extractNode_text normalize doc ([], "")
    exact Prod.ext hl ht

/-- A document with an anchor and text outside any skipped subtree. -/
def c9okTree : HNode :=
  HNode.cont (HForest.cons
    (HNode.elem "a" [("href", "https://example.com/y")] HForest.nil)
    (HForest.cons (HNode.textNode " Hello ") HForest.nil))

/-- Witness for `extract_single_pass_amended`: on a document with no anchor
inside a skipped subtree, the single pass equals the composition. -/
theorem extract_single_pass_amended_witness :
    noSkippedAnchorNode c9okTree = true ∧
    Extract c9normalize c9okTree =
      (extractLinks c9normalize c9okTree, extractText c9okTree) := by
  have h := extract_single_pass_amended c9normalize c9okTree
  exact ⟨rfl, h.2 rfl⟩
